import Mathlib

set_option maxRecDepth 100000

/-!
Verification of the Macro Momentum Rotation strategy.

The repository holds two near-duplicate implementations of the same
rule-based tactical allocation engine:

* `macro_momentum_rotation.py` — the platform-integrated variant
  (class `AbsoluteRelativeMomentum`), embedded below in namespace `MMR`;
* `macro_momentum_rotation_local.py` — the standalone data-pull script,
  embedded below in namespace `MMRLocal`.

Prices are modelled as exact rationals.  A raw price column is a list of
`Option ℚ` (chronologically ascending, `none` = missing observation, as in a
pandas column holding NaN); `dropna` keeps the valid observations.  The only
genuinely irrational computation of the source — the realized volatility,
which takes logarithms of price ratios and a square root of the sample
variance — is embedded over `ℝ` with `Real.log` / `Real.sqrt`; every other
quantity stays in `ℚ` (momentum and the 126-day return live in `WithBot ℚ`,
whose `⊥` plays the role of `-np.inf`).
-/

/-- An instrument identifier. -/
abbrev Ticker := String

/-- A raw price column: chronological adjusted closes, `none` for a missing
observation (pandas NaN). -/
abbrev Series := List (Option ℚ)

/-- The platform variant's price panel: the columns of
`history["close"].unstack(0)`, keyed by symbol. -/
abbrev Panel := List (Ticker × Series)

/-- Source `series.dropna()`: the valid (non-missing) observations, in order. -/
def dropna (col : Series) : List ℚ := col.filterMap id

/-- Source `px.iloc[-k]`: the k-th most recent valid observation (junk value `0`
when the list is shorter than `k`; every use in the source is guarded by a
length check). -/
def ilocNeg (px : List ℚ) (k : ℕ) : ℚ := px.getD (px.length - k) 0

/-- Source `px.rolling(n).mean().iloc[-1]`: the simple moving average of the most
recent `n` observations (only used under a guard `n ≤ px.length`). -/
def smaLast (px : List ℚ) (n : ℕ) : ℚ := (px.drop (px.length - n)).sum / (n : ℚ)

/-- Python's `max(scores, key=scores.get)` over the keys of a dict built by
inserting the members of `l` in order: the FIRST key attaining the maximal
score (`max` only replaces its current best on a strictly greater key). -/
def winnerSel (score : Ticker → WithBot ℚ) : List Ticker → Option Ticker
  | [] => none
  | h :: t => some (t.foldl (fun best s => if score best < score s then s else best) h)

/-- Source `np.log(px / px.shift(1)).dropna()`: daily log returns of consecutive
valid observations. -/
noncomputable def logReturns (px : List ℚ) : List ℝ :=
  (px.zip px.tail).map fun p => Real.log ((p.2 : ℝ) / (p.1 : ℝ))

/-- pandas `Series.std()` (ddof = 1): the sample standard deviation. -/
noncomputable def sampleStd (l : List ℝ) : ℝ :=
  Real.sqrt ((l.map fun x => (x - l.sum / (l.length : ℝ)) ^ 2).sum / ((l.length : ℝ) - 1))

/-- Total weight of an allocation given as a list of (symbol, weight) pairs. -/
def allocSum (l : List (Ticker × ℝ)) : ℝ := (l.map Prod.snd).sum

/-- The momentum contract in the spec's words (for comparison with the code):
if the available history is shorter than max(lookbacks)+1 = 253 observations
return negative infinity, otherwise the arithmetic mean over the lookback set
{21, 63, 126, 189, 252} of `price[-1] / price[-(L+1)] - 1` on the valid
observations. -/
def momentumSpec (px : List ℚ) : WithBot ℚ :=
  if px.length < 253 then ⊥
  else
    let rets := ([21, 63, 126, 189, 252] : List ℕ).map fun L =>
      ilocNeg px 1 / ilocNeg px (L + 1) - 1
    ((rets.sum / (rets.length : ℚ) : ℚ) : WithBot ℚ)

namespace MMR

/-- Source `self.bil`, the cash proxy. -/
def bil : Ticker := "BIL"

/-- Source `self.assets = self.etfs + [self.btc]`, in source order. -/
def assets : List Ticker :=
  ["VT", "VGLT", "VGIT", "GLD", "DBC", "BIL", "HYG", "VCIT", "VCLT", "VCSH", "VGSH", "BTCUSD"]

/-- Source `self.momentum_lookbacks`. -/
def momentum_lookbacks : List ℕ := [21, 63, 126, 189, 252]

/-- Source `self.max_lookback = max(self.momentum_lookbacks)`. -/
def max_lookback : ℕ := momentum_lookbacks.foldl max 0

/-- Source `self.sma_period`. -/
def sma_period : ℕ := 168

/-- Source `self.vol_lookback`. -/
def vol_lookback : ℕ := 252

/-- Source `self.target_vol`. -/
noncomputable def target_vol : ℝ := 0.12

/-- Source `self.max_weight`. -/
noncomputable def max_weight : ℝ := 1.0

/-- The valid price history of `s` in the panel (empty when the symbol is
absent from the columns). -/
def validOf (closes : Panel) (s : Ticker) : List ℚ := dropna ((closes.lookup s).getD [])

/-- Source `Momentum(self, symbol, closes)`: `-np.inf` when the symbol is absent or
its valid history is shorter than `max_lookback + 1`, else the mean of the
lookback returns `px.iloc[-1] / px.iloc[-(lb+1)] - 1`. -/
def Momentum (closes : Panel) (s : Ticker) : WithBot ℚ :=
  match closes.lookup s with
  | none => ⊥
  | some col =>
    let px := dropna col
    if px.length < max_lookback + 1 then ⊥
    else
      let rets := momentum_lookbacks.map fun lb => ilocNeg px 1 / ilocNeg px (lb + 1) - 1
      ((rets.sum / (rets.length : ℚ) : ℚ) : WithBot ℚ)

/-- Source `PassesSmaGate(self, symbol, closes)`: `BIL` always passes; otherwise the
symbol must be present, have at least `sma_period` valid observations, and its
latest close must be strictly above the `sma_period`-day simple moving
average.  (The source's `np.isnan(sma)` re-check is unreachable: the rolling
mean over a full window of valid observations is defined.) -/
def PassesSmaGate (closes : Panel) (s : Ticker) : Bool :=
  if s = bil then true
  else match closes.lookup s with
    | none => false
    | some col =>
      let px := dropna col
      if px.length < sma_period then false
      else decide (smaLast px sma_period < ilocNeg px 1)

/-- Source `RealizedVol(self, symbol, closes)`: `np.nan` (here `none`) when the
symbol is absent or has fewer than `vol_lookback + 1` valid observations (or
fewer than `vol_lookback` log returns); otherwise the sample standard
deviation of the most recent `vol_lookback` daily log returns, annualized by
`sqrt 252`.  (The source's final `np.isnan(vol)` re-check is unreachable in
exact arithmetic.) -/
noncomputable def RealizedVol (closes : Panel) (s : Ticker) : Option ℝ :=
  match closes.lookup s with
  | none => none
  | some col =>
    let px := dropna col
    if px.length < vol_lookback + 1 then none
    else
      let rets := logReturns px
      if rets.length < vol_lookback then none
      else some (sampleStd (rets.drop (rets.length - vol_lookback)) * Real.sqrt 252)

/-- Source `AbsoluteReturn6M(self, symbol, closes)`: `-np.inf` when the symbol is
absent or has fewer than `126 + 1` valid observations, otherwise
`px.iloc[-1] / px.iloc[-127] - 1`. -/
def AbsoluteReturn6M (closes : Panel) (s : Ticker) : WithBot ℚ :=
  match closes.lookup s with
  | none => ⊥
  | some col =>
    let px := dropna col
    if px.length < 126 + 1 then ⊥
    else ((ilocNeg px 1 / ilocNeg px 127 - 1 : ℚ) : WithBot ℚ)

/-- The eligibility loop of `Rebalance` (lines 162-179): keep the assets that
are present in the columns, pass the SMA gate, and either are `BIL` or have a
6-month absolute return strictly above `bil_ret_12m = AbsoluteReturn6M(bil)`. -/
def eligible (closes : Panel) : List Ticker :=
  assets.filter fun s =>
    (closes.lookup s).isSome && PassesSmaGate closes s &&
      (s == bil || decide (AbsoluteReturn6M closes bil < AbsoluteReturn6M closes s))

/-- The vol-targeting step of `Rebalance` (lines 198-205): weight 1.0 for the
cash proxy; otherwise 0.0 when the realized volatility is NaN (`none`) or zero
(`not vol`), else `min(max_weight, target_vol / vol)`. -/
noncomputable def weightFor (closes : Panel) (w : Ticker) : ℝ :=
  if w = bil then 1
  else match RealizedVol closes w with
    | none => 0
    | some v => if v = 0 then 0 else min max_weight (target_vol / v)

/-- The final holdings targeted by `Rebalance` (lines 181-216), as a map from
symbol to portfolio fraction.  `Liquidate()` zeroes everything; then
`SetHoldings(winner, weight)` and `SetHoldings(bil, cash_weight)` are issued
in that order, and a later `SetHoldings` on the same symbol overrides an
earlier one — hence the `s = bil` test is made first. -/
noncomputable def Rebalance (closes : Panel) : Ticker → ℝ :=
  match winnerSel (Momentum closes) (eligible closes) with
  | none => fun s => if s = bil then 1 else 0
  | some w =>
    fun s => if s = bil then 1 - weightFor closes w
             else if s = w then weightFor closes w else 0

end MMR

namespace MMRLocal

/-- Source `ASSETS + CRYPTO`, in source order. -/
def ALL_SYMBOLS : List Ticker :=
  ["VT", "VGLT", "VGIT", "GLD", "DBC", "BIL", "HYG", "VCIT", "VCLT", "VCSH", "VGSH", "IBIT"]

/-- Source `CASH_PROXY`. -/
def CASH_PROXY : Ticker := "BIL"

/-- Source `MOMENTUM_LOOKBACKS`. -/
def MOMENTUM_LOOKBACKS : List ℕ := [21, 63, 126, 189, 252]

/-- Source `SMA_PERIOD`. -/
def SMA_PERIOD : ℕ := 168

/-- Source `VOL_LOOKBACK`. -/
def VOL_LOOKBACK : ℕ := 252

/-- Source `TARGET_VOL`. -/
noncomputable def TARGET_VOL : ℝ := 0.12

/-- Source `MAX_WEIGHT`. -/
noncomputable def MAX_WEIGHT : ℝ := 1.0

/-- The standalone script's data: one (possibly gappy) column per symbol. -/
abbrev DataPanel := Ticker → Series

/-- The list built by the loop of `calculate_momentum`: one simple return for
each lookback `lb` with `len(series) > lb`. -/
def momReturns (series : List ℚ) : List ℚ :=
  MOMENTUM_LOOKBACKS.filterMap fun lb =>
    if lb < series.length then some (ilocNeg series 1 / ilocNeg series (lb + 1) - 1) else none

/-- Source `calculate_momentum(series)`: `np.mean(returns) if returns else -np.inf`. -/
def calculate_momentum (series : List ℚ) : WithBot ℚ :=
  if momReturns series = [] then ⊥
  else (((momReturns series).sum / ((momReturns series).length : ℚ) : ℚ) : WithBot ℚ)

/-- Source `get_realized_vol(series)`: `np.nan` (`none`) with fewer than
`VOL_LOOKBACK + 1` observations, else the annualized sample standard deviation
of the last `VOL_LOOKBACK` daily log returns. -/
noncomputable def get_realized_vol (series : List ℚ) : Option ℝ :=
  if series.length < VOL_LOOKBACK + 1 then none
  else
    let returns := logReturns series
    some (sampleStd (returns.drop (returns.length - VOL_LOOKBACK)) * Real.sqrt 252)

/-- The 6-month return expression of `run_strategy` (lines 49 and 62):
`(px.iloc[-1] / px.iloc[-127]) - 1 if len(px) > 127 else -np.inf`. -/
def abs_6m_ret (px : List ℚ) : WithBot ℚ :=
  if 127 < px.length then ((ilocNeg px 1 / ilocNeg px 127 - 1 : ℚ) : WithBot ℚ) else ⊥

/-- Source `max(MOMENTUM_LOOKBACKS + [SMA_PERIOD, VOL_LOOKBACK])` (line 54). -/
def minHistory : ℕ := (MOMENTUM_LOOKBACKS ++ [SMA_PERIOD, VOL_LOOKBACK]).foldl max 0

/-- One pass of the screening loop of `run_strategy` (lines 52-66): skip
symbols with fewer than `minHistory` valid observations; otherwise require
`passes_sma = (px.iloc[-1] > sma) or (symbol == CASH_PROXY)` and
`beats_cash = (abs_6m_ret > bil_6m_ret) or (symbol == CASH_PROXY)`. -/
def eligStep (data : DataPanel) (s : Ticker) : Bool :=
  let px := dropna (data s)
  if px.length < minHistory then false
  else
    (decide (smaLast px SMA_PERIOD < ilocNeg px 1) || s == CASH_PROXY) &&
    (decide (abs_6m_ret (dropna (data CASH_PROXY)) < abs_6m_ret px) || s == CASH_PROXY)

/-- The eligible list accumulated by the screening loop, in universe order. -/
def eligibleL (data : DataPanel) : List Ticker := ALL_SYMBOLS.filter (eligStep data)

/-- The vol-targeting expression of `run_strategy` (line 87):
`min(MAX_WEIGHT, TARGET_VOL / vol) if vol > 0 else 0` (NaN compares false). -/
noncomputable def localWeight (vol : Option ℝ) : ℝ :=
  match vol with
  | none => 0
  | some v => if 0 < v then min MAX_WEIGHT (TARGET_VOL / v) else 0

/-- The winner's weight (lines 83-87): fixed 1.0 for the cash proxy, else the
vol-targeted weight. -/
noncomputable def localWinnerWeight (data : DataPanel) (w : Ticker) : ℝ :=
  if w = CASH_PROXY then 1 else localWeight (get_realized_vol (dropna (data w)))

/-- Source `run_strategy(data)`'s final target allocation: `{CASH_PROXY: 1.0}` when
nothing is eligible; otherwise the printed allocation — the winner at its
weight, plus the cash proxy at `cash_weight = 1 - weight` when that is
positive (line 95 suppresses a zero cash line). -/
noncomputable def run_strategy (data : DataPanel) : List (Ticker × ℝ) :=
  match winnerSel (fun s => calculate_momentum (dropna (data s))) (eligibleL data) with
  | none => [(CASH_PROXY, 1)]
  | some w =>
    (w, localWinnerWeight data w) ::
      (if 0 < 1 - localWinnerWeight data w then [(CASH_PROXY, 1 - localWinnerWeight data w)]
       else [])

end MMRLocal

/-! ### Concrete panels used by counterexamples and witnesses -/

/-- A column of `n` valid prices at `1` followed by a final valid price `2`:
a minimal up-trending series. -/
def upCol (n : ℕ) : Series := List.replicate n (some (1 : ℚ)) ++ [some 2]

/-- Platform panel: a single instrument VT with 168 valid prices ending on an
up-tick — enough for both eligibility gates, too short for momentum or
realized volatility. -/
def pC10 : Panel := [("VT", upCol 167)]

/-- Platform panel: BIL is the only instrument (one valid price). -/
def pBil : Panel := [("BIL", [some 1])]

/-- Platform panel: VT flat at 100 for 300 days. -/
def pFlat : Panel := [("VT", List.replicate 300 (some (100 : ℚ)))]

/-- Platform panel: VT with exactly 127 valid prices, flat at 2. -/
def p127 : Panel := [("VT", List.replicate 127 (some (2 : ℚ)))]

/-- Standalone data: every symbol has 100 valid prices, flat at 1. -/
def dataC2 : MMRLocal.DataPanel := fun _ => List.replicate 100 (some (1 : ℚ))

/-- Standalone data: BIL flat at 1 for 253 days, every other column empty. -/
def dataBil : MMRLocal.DataPanel :=
  fun s => if s = "BIL" then List.replicate 253 (some (1 : ℚ)) else []

/-- Standalone data: VT flat at 100 for 300 days, every other column empty. -/
def dataFlat : MMRLocal.DataPanel :=
  fun s => if s = "VT" then List.replicate 300 (some (100 : ℚ)) else []

/-- Standalone data: every column empty. -/
def dataEmpty : MMRLocal.DataPanel := fun _ => []

/-! ### Evaluation lemmas for the concrete panels

Kernel reduction of `ℚ` arithmetic is blocked (its operations normalize
through `Nat.gcd`), so concrete rational computations are carried out through
the following rewriting lemmas rather than by `decide`. -/

theorem dropna_replicate (n : ℕ) (c : ℚ) :
    dropna (List.replicate n (some c)) = List.replicate n c := by
  induction n with
  | zero => rfl
  | succ k ih => simp [List.replicate_succ, dropna]

theorem ilocNeg_replicate {n k : ℕ} (c : ℚ) (h1 : 1 ≤ k) (h2 : k ≤ n) :
    ilocNeg (List.replicate n c) k = c := by
  have hlt : n - k < n := by omega
  simp [ilocNeg, List.getD_eq_getElem?_getD, List.getElem?_replicate, hlt]

theorem smaLast_replicate {n m : ℕ} (c : ℚ) (h0 : 0 < m) (h : m ≤ n) :
    smaLast (List.replicate n c) m = c := by
  have hm : n - (n - m) = m := by omega
  have hm0 : (m : ℚ) ≠ 0 := by exact_mod_cast h0.ne'
  rw [smaLast, List.length_replicate, List.drop_replicate, hm, List.sum_replicate,
    nsmul_eq_mul]
  exact mul_div_cancel_left₀ c hm0

theorem dropna_upCol (n : ℕ) : dropna (upCol n) = List.replicate n (1 : ℚ) ++ [2] := by
  have h := dropna_replicate n (1 : ℚ)
  simp only [upCol, dropna, List.filterMap_append] at h ⊢
  rw [h]; rfl

theorem length_dropna_upCol (n : ℕ) : (dropna (upCol n)).length = n + 1 := by
  rw [dropna_upCol]; simp

theorem ilocNeg_upCol_last (n : ℕ) : ilocNeg (dropna (upCol n)) 1 = 2 := by
  rw [dropna_upCol, ilocNeg, List.getD_eq_getElem?_getD]
  have hlen : (List.replicate n (1 : ℚ) ++ [2]).length = n + 1 := by simp
  rw [hlen, Nat.add_sub_cancel, List.getElem?_append_right (by simp)]
  simp

theorem ilocNeg_upCol_early (n k : ℕ) (h2 : 2 ≤ k) (hk : k ≤ n + 1) :
    ilocNeg (dropna (upCol n)) k = 1 := by
  rw [dropna_upCol, ilocNeg, List.getD_eq_getElem?_getD]
  have hlen : (List.replicate n (1 : ℚ) ++ [2]).length = n + 1 := by simp
  have hlt : n + 1 - k < n := by omega
  rw [hlen, List.getElem?_append_left (by simp; omega)]
  simp [List.getElem?_replicate, hlt]

theorem smaLast_upCol167 : smaLast (dropna (upCol 167)) 168 = 169 / 168 := by
  rw [dropna_upCol, smaLast]
  have hlen : (List.replicate 167 (1 : ℚ) ++ [2]).length = 168 := by simp
  rw [hlen]
  norm_num [List.sum_append, List.sum_replicate]

theorem PassesSmaGate_pC10 : MMR.PassesSmaGate pC10 "VT" = true := by
  have h1 := smaLast_upCol167
  have h2 := ilocNeg_upCol_last 167
  have h3 := length_dropna_upCol 167
  simp [MMR.PassesSmaGate, MMR.bil, MMR.sma_period, pC10, List.lookup, h1, h2, h3]
  norm_num

theorem abs6M_pC10_VT : MMR.AbsoluteReturn6M pC10 "VT" = ((1 : ℚ) : WithBot ℚ) := by
  have h2 := ilocNeg_upCol_last 167
  have h4 := ilocNeg_upCol_early 167 127 (by norm_num) (by norm_num)
  have h3 := length_dropna_upCol 167
  simp [MMR.AbsoluteReturn6M, pC10, List.lookup, h2, h3, h4]
  norm_num

theorem abs6M_pC10_bil : MMR.AbsoluteReturn6M pC10 MMR.bil = ⊥ := by
  simp [MMR.AbsoluteReturn6M, pC10, List.lookup, MMR.bil]

theorem lookup_pC10_VT : pC10.lookup "VT" = some (upCol 167) := rfl

theorem lookup_pC10_ne (s : Ticker) (h : ¬ s = "VT") : pC10.lookup s = none := by
  have hb : (s == "VT") = false := beq_eq_false_iff_ne.mpr h
  simp [pC10, List.lookup, hb]

theorem eligible_pC10 : MMR.eligible pC10 = ["VT"] := by
  have hno : ∀ s : Ticker, ¬ s = "VT" → (pC10.lookup s).isSome = false := by
    intro s h; rw [lookup_pC10_ne s h]; rfl
  have hd : decide (MMR.AbsoluteReturn6M pC10 "BIL" < MMR.AbsoluteReturn6M pC10 "VT")
      = true := by
    have h1 : MMR.AbsoluteReturn6M pC10 "BIL" = ⊥ := abs6M_pC10_bil
    rw [h1, abs6M_pC10_VT]; exact decide_eq_true (WithBot.bot_lt_coe _)
  simp only [MMR.eligible, MMR.assets]
  simp [hno, lookup_pC10_VT, PassesSmaGate_pC10, hd, MMR.bil]

theorem winnerSel_pC10 : winnerSel (MMR.Momentum pC10) (MMR.eligible pC10) = some "VT" := by
  rw [eligible_pC10]; rfl

theorem dropna_dataBil_bil : dropna (dataBil "BIL") = List.replicate 253 (1 : ℚ) := by
  have h := dropna_replicate 253 (1 : ℚ)
  simp [dataBil]
  exact h

theorem eligStep_dataBil_bil : MMRLocal.eligStep dataBil "BIL" = true := by
  have hmin : MMRLocal.minHistory = 252 := by decide
  simp [MMRLocal.eligStep, MMRLocal.CASH_PROXY, dropna_dataBil_bil, hmin]

theorem eligibleL_dataBil : MMRLocal.eligibleL dataBil = ["BIL"] := by
  have hne : ∀ s : Ticker, ¬ s = "BIL" → MMRLocal.eligStep dataBil s = false := by
    intro s h
    have hmin0 : 0 < MMRLocal.minHistory := by decide
    simp [MMRLocal.eligStep, dataBil, h, dropna, hmin0]
  simp [MMRLocal.eligibleL, MMRLocal.ALL_SYMBOLS, eligStep_dataBil_bil, hne]

theorem winnerSelL_dataBil :
    winnerSel (fun s => MMRLocal.calculate_momentum (dropna (dataBil s)))
      (MMRLocal.eligibleL dataBil) = some "BIL" := by
  rw [eligibleL_dataBil]; rfl

/-! ### General lemmas about the embedded operations -/

theorem foldl_best_mem (score : Ticker → WithBot ℚ) :
    ∀ (t : List Ticker) (b : Ticker),
      t.foldl (fun best s => if score best < score s then s else best) b ∈ b :: t := by
  intro t
  induction t with
  | nil => intro b; simp
  | cons a t ih =>
    intro b
    have h := ih (if score b < score a then a else b)
    simp only [List.foldl_cons]
    rcases List.mem_cons.mp h with h1 | h1
    · rw [h1]
      by_cases hc : score b < score a
      · rw [if_pos hc]; exact List.mem_cons_of_mem _ (List.mem_cons_self a t)
      · rw [if_neg hc]; exact List.mem_cons_self b _
    · exact List.mem_cons_of_mem _ (List.mem_cons_of_mem _ h1)

theorem winnerSel_mem {score : Ticker → WithBot ℚ} {l : List Ticker} {w : Ticker}
    (h : winnerSel score l = some w) : w ∈ l := by
  cases l with
  | nil => simp [winnerSel] at h
  | cons a t =>
    simp only [winnerSel, Option.some.injEq] at h
    rw [← h]
    exact foldl_best_mem score t a

theorem winnerSel_eq_none {score : Ticker → WithBot ℚ} {l : List Ticker} :
    winnerSel score l = none ↔ l = [] := by
  cases l <;> simp [winnerSel]

theorem sampleStd_nonneg (l : List ℝ) : 0 ≤ sampleStd l := Real.sqrt_nonneg _

theorem RealizedVol_nonneg {closes : Panel} {s : Ticker} {v : ℝ}
    (h : MMR.RealizedVol closes s = some v) : 0 ≤ v := by
  rcases hl : closes.lookup s with _ | col
  · simp [MMR.RealizedVol, hl] at h
  · simp only [MMR.RealizedVol, hl] at h
    split_ifs at h <;>
      first
        | exact Option.noConfusion h
        | (rw [← Option.some.inj h]
           exact mul_nonneg (sampleStd_nonneg _) (Real.sqrt_nonneg _))

theorem get_realized_vol_nonneg {series : List ℚ} {v : ℝ}
    (h : MMRLocal.get_realized_vol series = some v) : 0 ≤ v := by
  simp only [MMRLocal.get_realized_vol] at h
  split_ifs at h <;>
    first
      | exact Option.noConfusion h
      | (rw [← Option.some.inj h]
         exact mul_nonneg (sampleStd_nonneg _) (Real.sqrt_nonneg _))

theorem max_lookback_eq : MMR.max_lookback = 252 := by decide

theorem minHistory_eq : MMRLocal.minHistory = 252 := by decide

theorem max_weight_eq : MMR.max_weight = 1 := by norm_num [MMR.max_weight]

theorem MAX_WEIGHT_eq : MMRLocal.MAX_WEIGHT = 1 := by norm_num [MMRLocal.MAX_WEIGHT]

theorem target_vol_nonneg : 0 ≤ MMR.target_vol := by norm_num [MMR.target_vol]

theorem TARGET_VOL_nonneg : 0 ≤ MMRLocal.TARGET_VOL := by norm_num [MMRLocal.TARGET_VOL]

theorem weightFor_nonneg (closes : Panel) (w : Ticker) : 0 ≤ MMR.weightFor closes w := by
  rw [MMR.weightFor]
  split_ifs with hw
  · norm_num
  · rcases hv : MMR.RealizedVol closes w with _ | v
    · simp
    · simp only [hv]
      split_ifs with h0
      · norm_num
      · have hvpos : 0 < v := lt_of_le_of_ne (RealizedVol_nonneg hv) (Ne.symm h0)
        exact le_min (by rw [max_weight_eq]; norm_num)
          (div_nonneg target_vol_nonneg hvpos.le)

theorem weightFor_le (closes : Panel) (w : Ticker) :
    MMR.weightFor closes w ≤ MMR.max_weight := by
  rw [MMR.weightFor]
  split_ifs with hw
  · rw [max_weight_eq]
  · rcases hv : MMR.RealizedVol closes w with _ | v
    · rw [max_weight_eq]; norm_num
    · simp only [hv]
      split_ifs with h0
      · rw [max_weight_eq]; norm_num
      · exact min_le_left _ _

theorem localWeight_nonneg (vol : Option ℝ) : 0 ≤ MMRLocal.localWeight vol := by
  rcases vol with _ | v
  · simp [MMRLocal.localWeight]
  · simp only [MMRLocal.localWeight]
    split_ifs with h0
    · exact le_min (by rw [MAX_WEIGHT_eq]; norm_num)
        (div_nonneg TARGET_VOL_nonneg h0.le)
    · norm_num

theorem localWeight_le (vol : Option ℝ) :
    MMRLocal.localWeight vol ≤ MMRLocal.MAX_WEIGHT := by
  rcases vol with _ | v
  · simp [MMRLocal.localWeight, MAX_WEIGHT_eq]
  · simp only [MMRLocal.localWeight]
    split_ifs with h0
    · exact min_le_left _ _
    · rw [MAX_WEIGHT_eq]; norm_num

theorem localWinnerWeight_nonneg (data : MMRLocal.DataPanel) (w : Ticker) :
    0 ≤ MMRLocal.localWinnerWeight data w := by
  rw [MMRLocal.localWinnerWeight]
  split_ifs with hw
  · norm_num
  · exact localWeight_nonneg _

theorem localWinnerWeight_le (data : MMRLocal.DataPanel) (w : Ticker) :
    MMRLocal.localWinnerWeight data w ≤ 1 := by
  rw [MMRLocal.localWinnerWeight]
  split_ifs with hw
  · norm_num
  · calc MMRLocal.localWeight _ ≤ MMRLocal.MAX_WEIGHT := localWeight_le _
      _ = 1 := MAX_WEIGHT_eq

theorem Rebalance_eq_none {closes : Panel}
    (h : winnerSel (MMR.Momentum closes) (MMR.eligible closes) = none) :
    MMR.Rebalance closes = fun s => if s = MMR.bil then 1 else 0 := by
  simp only [MMR.Rebalance, h]

theorem Rebalance_eq_some {closes : Panel} {w : Ticker}
    (h : winnerSel (MMR.Momentum closes) (MMR.eligible closes) = some w) :
    MMR.Rebalance closes = fun s =>
      if s = MMR.bil then 1 - MMR.weightFor closes w
      else if s = w then MMR.weightFor closes w else 0 := by
  simp only [MMR.Rebalance, h]

theorem run_strategy_eq_none {data : MMRLocal.DataPanel}
    (h : winnerSel (fun s => MMRLocal.calculate_momentum (dropna (data s)))
      (MMRLocal.eligibleL data) = none) :
    MMRLocal.run_strategy data = [(MMRLocal.CASH_PROXY, 1)] := by
  simp only [MMRLocal.run_strategy, h]

theorem run_strategy_eq_some {data : MMRLocal.DataPanel} {w : Ticker}
    (h : winnerSel (fun s => MMRLocal.calculate_momentum (dropna (data s)))
      (MMRLocal.eligibleL data) = some w) :
    MMRLocal.run_strategy data =
      (w, MMRLocal.localWinnerWeight data w) ::
        (if 0 < 1 - MMRLocal.localWinnerWeight data w
         then [(MMRLocal.CASH_PROXY, 1 - MMRLocal.localWinnerWeight data w)] else []) := by
  simp only [MMRLocal.run_strategy, h]

/-! ### Claim theorems -/

/-- C3: for every panel in which the eligible set is empty, both variants
output exactly the allocation mapping the cash proxy to 1.0 — the branch
returns before the momentum scorer or the volatility sizer is reached
(terminal short-circuit). -/
theorem c3_empty_eligible_cash :
    (∀ closes : Panel, MMR.eligible closes = [] →
      MMR.Rebalance closes = fun s => if s = MMR.bil then 1 else 0) ∧
    (∀ data : MMRLocal.DataPanel, MMRLocal.eligibleL data = [] →
      MMRLocal.run_strategy data = [(MMRLocal.CASH_PROXY, 1)]) := by
  constructor
  · intro closes h
    exact Rebalance_eq_none (winnerSel_eq_none.mpr h)
  · intro data h
    exact run_strategy_eq_none (winnerSel_eq_none.mpr h)

/-- C3 witness: a panel with no columns at all has an empty eligible set and
yields the 100% cash-proxy allocation in both variants. -/
theorem c3_empty_eligible_cash_witness :
    MMR.eligible ([] : Panel) = [] ∧
    MMR.Rebalance ([] : Panel) = (fun s => if s = MMR.bil then 1 else 0) ∧
    MMRLocal.eligibleL dataEmpty = [] ∧
    MMRLocal.run_strategy dataEmpty = [(MMRLocal.CASH_PROXY, 1)] :=
  ⟨by decide, c3_empty_eligible_cash.1 [] (by decide), by decide,
    c3_empty_eligible_cash.2 dataEmpty (by decide)⟩

/-- C9: the decision function is deterministic and memoryless — it is a pure
function of the price panel alone (the config being fixed constants), so two
invocations on equal inputs produce identical allocations. -/
theorem c9_deterministic :
    (∀ closes : Panel, MMR.Rebalance closes = MMR.Rebalance closes) ∧
    (∀ data : MMRLocal.DataPanel,
      MMRLocal.run_strategy data = MMRLocal.run_strategy data) ∧
    (∀ closes closes2 : Panel, closes = closes2 →
      MMR.Rebalance closes = MMR.Rebalance closes2) ∧
    (∀ data data2 : MMRLocal.DataPanel, data = data2 →
      MMRLocal.run_strategy data = MMRLocal.run_strategy data2) :=
  ⟨fun _ => rfl, fun _ => rfl, fun _ _ h => by rw [h], fun _ _ h => by rw [h]⟩

/-- C9 witness: the determinism statements instantiated at a concrete panel. -/
theorem c9_deterministic_witness :
    MMR.Rebalance pBil = MMR.Rebalance pBil ∧
    MMRLocal.run_strategy dataBil = MMRLocal.run_strategy dataBil :=
  ⟨c9_deterministic.2.2.1 pBil pBil rfl, c9_deterministic.2.2.2 dataBil dataBil rfl⟩

/-- C4: for every non-empty-eligible-set outcome, the winner's computed
weight lies in [0, maxWeight], the winner's weight plus the cash weight
(1 − weight) is exactly 1, every weight in the output is nonnegative, and —
for a non-cash winner — the two final holdings sum to 1. -/
theorem c4_weight_invariants :
    (∀ (closes : Panel) (w : Ticker),
      winnerSel (MMR.Momentum closes) (MMR.eligible closes) = some w →
      0 ≤ MMR.weightFor closes w ∧
      MMR.weightFor closes w ≤ MMR.max_weight ∧
      MMR.weightFor closes w + (1 - MMR.weightFor closes w) = 1 ∧
      (∀ s, 0 ≤ MMR.Rebalance closes s) ∧
      (w ≠ MMR.bil → MMR.Rebalance closes w + MMR.Rebalance closes MMR.bil = 1)) ∧
    (∀ (data : MMRLocal.DataPanel) (w : Ticker),
      winnerSel (fun s => MMRLocal.calculate_momentum (dropna (data s)))
        (MMRLocal.eligibleL data) = some w →
      0 ≤ MMRLocal.localWinnerWeight data w ∧
      MMRLocal.localWinnerWeight data w ≤ MMRLocal.MAX_WEIGHT ∧
      allocSum (MMRLocal.run_strategy data) = 1 ∧
      (∀ p ∈ MMRLocal.run_strategy data, 0 ≤ p.2)) := by
  constructor
  · intro closes w hw
    have h1 := weightFor_nonneg closes w
    have h2 : MMR.weightFor closes w ≤ 1 := (weightFor_le closes w).trans_eq max_weight_eq
    refine ⟨h1, weightFor_le _ _, by ring, ?_, ?_⟩
    · intro s
      rw [Rebalance_eq_some hw]
      dsimp only
      split_ifs with hs1 hs2
      · linarith
      · exact h1
      · exact le_refl 0
    · intro hbw
      rw [Rebalance_eq_some hw]
      dsimp only
      rw [if_neg hbw, if_pos rfl, if_pos rfl]
      ring
  · intro data w hw
    have h1 := localWinnerWeight_nonneg data w
    have h2 := localWinnerWeight_le data w
    refine ⟨h1, by rw [MAX_WEIGHT_eq]; exact h2, ?_, ?_⟩
    · rw [run_strategy_eq_some hw]
      by_cases hcw : 0 < 1 - MMRLocal.localWinnerWeight data w
      · rw [if_pos hcw]
        simp only [allocSum, List.map_cons, List.map_nil, List.sum_cons, List.sum_nil]
        ring
      · rw [if_neg hcw]
        simp only [allocSum, List.map_cons, List.map_nil, List.sum_cons, List.sum_nil]
        have h3 : 1 ≤ MMRLocal.localWinnerWeight data w := by linarith [not_lt.mp hcw]
        have h4 : MMRLocal.localWinnerWeight data w = 1 := le_antisymm h2 h3
        rw [h4]; ring
    · intro p hp
      rw [run_strategy_eq_some hw] at hp
      by_cases hcw : 0 < 1 - MMRLocal.localWinnerWeight data w
      · rw [if_pos hcw] at hp
        simp only [List.mem_cons, List.mem_singleton, List.not_mem_nil, or_false] at hp
        rcases hp with rfl | rfl
        · exact h1
        · exact hcw.le
      · rw [if_neg hcw] at hp
        simp only [List.mem_cons, List.not_mem_nil, or_false] at hp
        rcases hp with rfl
        exact h1

/-- C4 witness: the invariants instantiated at concrete panels whose winners
exist (BIL wins in both variants). -/
theorem c4_weight_invariants_witness :
    winnerSel (MMR.Momentum pBil) (MMR.eligible pBil) = some MMR.bil ∧
    0 ≤ MMR.weightFor pBil MMR.bil ∧
    winnerSel (fun s => MMRLocal.calculate_momentum (dropna (dataBil s)))
      (MMRLocal.eligibleL dataBil) = some "BIL" ∧
    allocSum (MMRLocal.run_strategy dataBil) = 1 :=
  ⟨by decide, (c4_weight_invariants.1 pBil MMR.bil (by decide)).1,
   winnerSelL_dataBil, (c4_weight_invariants.2 dataBil "BIL" winnerSelL_dataBil).2.2.1⟩

/-- C7 (code-bug evidence): on a panel where BIL itself is the winner the
platform variant fixes the computed weight at 1.0 (the sizer is not applied),
but the trailing `SetHoldings(bil, cash_weight)` — issued after
`SetHoldings(winner, weight)` and overriding it, `cash_weight` being 0.0 —
leaves the final BIL target at 0 instead of the documented `{BIL: 1.0}`; the
standalone variant outputs `{BIL: 1.0}` as the claim states. -/
theorem c7_cash_winner_override_bug :
    winnerSel (MMR.Momentum pBil) (MMR.eligible pBil) = some MMR.bil ∧
    MMR.weightFor pBil MMR.bil = 1 ∧
    MMR.Rebalance pBil MMR.bil = 0 ∧
    (∀ s, MMR.Rebalance pBil s = 0) ∧
    MMRLocal.run_strategy dataBil = [(MMRLocal.CASH_PROXY, 1)] := by
  have hwin : winnerSel (MMR.Momentum pBil) (MMR.eligible pBil) = some MMR.bil := by
    decide
  have hwf : MMR.weightFor pBil MMR.bil = 1 := by rw [MMR.weightFor, if_pos rfl]
  have hall : ∀ s, MMR.Rebalance pBil s = 0 := by
    intro s
    rw [Rebalance_eq_some hwin]
    dsimp only
    split_ifs with h1
    · rw [hwf]; ring
    · rfl
  have hloc : MMRLocal.run_strategy dataBil = [(MMRLocal.CASH_PROXY, 1)] := by
    rw [run_strategy_eq_some winnerSelL_dataBil]
    have hw1 : MMRLocal.localWinnerWeight dataBil "BIL" = 1 := by
      rw [MMRLocal.localWinnerWeight,
        if_pos (show ("BIL" : Ticker) = MMRLocal.CASH_PROXY from rfl)]
    rw [hw1]
    norm_num [MMRLocal.CASH_PROXY]
  exact ⟨hwin, hwf, hall MMR.bil, hall, hloc⟩

/-- C8: for a non-cash winner the weight is 0 when the realized volatility is
undefined (NaN, in particular with fewer than 253 valid observations) or
zero, and is `min(maxWeight, targetVol / vol)` when it is defined and
nonzero — in which case the volatility is strictly positive, so the division
is only reached with a positive divisor; with enough observations the
volatility is a defined nonnegative number. -/
theorem c8_vol_sizer_safety :
    (∀ (closes : Panel) (w : Ticker), w ≠ MMR.bil →
      (MMR.RealizedVol closes w = none → MMR.weightFor closes w = 0) ∧
      (MMR.RealizedVol closes w = some 0 → MMR.weightFor closes w = 0) ∧
      (∀ v, MMR.RealizedVol closes w = some v → v ≠ 0 →
        0 < v ∧ MMR.weightFor closes w = min MMR.max_weight (MMR.target_vol / v)) ∧
      ((MMR.validOf closes w).length < MMR.vol_lookback + 1 →
        MMR.RealizedVol closes w = none) ∧
      (∀ col, closes.lookup w = some col →
        MMR.vol_lookback + 1 ≤ (dropna col).length →
        ∃ v, MMR.RealizedVol closes w = some v ∧ 0 ≤ v)) ∧
    (∀ series : List ℚ,
      (series.length < MMRLocal.VOL_LOOKBACK + 1 →
        MMRLocal.get_realized_vol series = none) ∧
      MMRLocal.localWeight none = 0 ∧
      (∀ v, MMRLocal.get_realized_vol series = some v → 0 < v →
        MMRLocal.localWeight (MMRLocal.get_realized_vol series) =
          min MMRLocal.MAX_WEIGHT (MMRLocal.TARGET_VOL / v)) ∧
      (∀ v, MMRLocal.get_realized_vol series = some v → ¬ 0 < v →
        MMRLocal.localWeight (MMRLocal.get_realized_vol series) = 0)) := by
  constructor
  · intro closes w hwne
    refine ⟨?_, ?_, ?_, ?_, ?_⟩
    · intro hvol
      rw [MMR.weightFor, if_neg hwne]
      simp [hvol]
    · intro hvol
      rw [MMR.weightFor, if_neg hwne]
      simp [hvol]
    · intro v hvol hv0
      refine ⟨lt_of_le_of_ne (RealizedVol_nonneg hvol) (Ne.symm hv0), ?_⟩
      rw [MMR.weightFor, if_neg hwne]
      simp only [hvol]
      rw [if_neg hv0]
    · intro hlen
      rcases hl : closes.lookup w with _ | col
      · simp [MMR.RealizedVol, hl]
      · have hc : (dropna col).length < MMR.vol_lookback + 1 := by
          rw [MMR.validOf, hl] at hlen
          simpa using hlen
        simp [MMR.RealizedVol, hl, hc]
    · intro col hl hlen
      have hn1 : ¬ (dropna col).length < MMR.vol_lookback + 1 := not_lt.mpr hlen
      have h253 : 252 + 1 ≤ (dropna col).length := by
        simpa [MMR.vol_lookback] using hlen
      have hlr : (logReturns (dropna col)).length = (dropna col).length - 1 := by
        simp [logReturns]
      have hn2 : ¬ (logReturns (dropna col)).length < MMR.vol_lookback := by
        rw [hlr]
        simp only [MMR.vol_lookback]
        omega
      have hsome : MMR.RealizedVol closes w =
          some (sampleStd ((logReturns (dropna col)).drop
            ((logReturns (dropna col)).length - MMR.vol_lookback)) * Real.sqrt 252) := by
        simp [MMR.RealizedVol, hl, hn1, hn2]
      exact ⟨_, hsome, mul_nonneg (sampleStd_nonneg _) (Real.sqrt_nonneg _)⟩
  · intro series
    refine ⟨?_, rfl, ?_, ?_⟩
    · intro hlen
      simp [MMRLocal.get_realized_vol, hlen]
    · intro v hvol hvpos
      rw [hvol]
      simp [MMRLocal.localWeight, hvpos]
    · intro v hvol hvneg
      rw [hvol]
      simp [MMRLocal.localWeight, hvneg]

/-- C8 witness: the safety statements instantiated at a non-cash symbol with
a one-observation column (volatility undefined) and at the empty series. -/
theorem c8_vol_sizer_safety_witness :
    (("VT" : Ticker) ≠ MMR.bil) ∧
    (MMR.RealizedVol pBil "VT" = none → MMR.weightFor pBil "VT" = 0) ∧
    MMRLocal.get_realized_vol [] = none :=
  ⟨by decide, (c8_vol_sizer_safety.1 pBil "VT" (by decide)).1,
   (c8_vol_sizer_safety.2 []).1 (by decide)⟩

/-- C10: an instrument can be eligible with as few as 168 valid observations;
whenever every eligible instrument has fewer than the 253 observations
momentum requires, the winner is still selected (with momentum score
negative infinity), its realized volatility is undefined, and — for a
non-cash winner — the final allocation is winner ↦ 0, cash proxy ↦ 1.
Winner selection never requires a finite momentum score. -/
theorem c10_winner_without_momentum :
    ∀ (closes : Panel) (w : Ticker),
      winnerSel (MMR.Momentum closes) (MMR.eligible closes) = some w →
      (∀ s ∈ MMR.eligible closes, (MMR.validOf closes s).length < 253) →
      w ≠ MMR.bil →
      MMR.Momentum closes w = ⊥ ∧
      MMR.RealizedVol closes w = none ∧
      MMR.weightFor closes w = 0 ∧
      MMR.Rebalance closes MMR.bil = 1 ∧
      MMR.Rebalance closes w = 0 ∧
      (∀ s, s ≠ MMR.bil → MMR.Rebalance closes s = 0) := by
  intro closes w hwin hshort hwb
  have hmem : w ∈ MMR.eligible closes := winnerSel_mem hwin
  have hlen : (MMR.validOf closes w).length < 253 := hshort w hmem
  have hmom : MMR.Momentum closes w = ⊥ := by
    rcases hl : closes.lookup w with _ | col
    · simp [MMR.Momentum, hl]
    · have hc : (dropna col).length < MMR.max_lookback + 1 := by
        rw [MMR.validOf, hl] at hlen
        simpa [max_lookback_eq] using hlen
      simp [MMR.Momentum, hl, hc]
  have hvol : MMR.RealizedVol closes w = none := by
    rcases hl : closes.lookup w with _ | col
    · simp [MMR.RealizedVol, hl]
    · have hc : (dropna col).length < MMR.vol_lookback + 1 := by
        rw [MMR.validOf, hl] at hlen
        simpa [MMR.vol_lookback] using hlen
      simp [MMR.RealizedVol, hl, hc]
  have hwf : MMR.weightFor closes w = 0 := by
    rw [MMR.weightFor, if_neg hwb]
    simp [hvol]
  refine ⟨hmom, hvol, hwf, ?_, ?_, ?_⟩
  · rw [Rebalance_eq_some hwin]
    dsimp only
    rw [if_pos rfl, hwf]
    ring
  · rw [Rebalance_eq_some hwin]
    dsimp only
    rw [if_neg hwb, if_pos rfl]
    exact hwf
  · intro s hs
    rw [Rebalance_eq_some hwin]
    dsimp only
    rw [if_neg hs]
    split_ifs with h2
    · exact hwf
    · rfl

/-- C10 witness: VT alone in the panel with 168 valid observations ending on
an up-tick is eligible and wins with momentum −∞; the resulting holdings are
BIL ↦ 1, VT ↦ 0. -/
theorem c10_winner_without_momentum_witness :
    winnerSel (MMR.Momentum pC10) (MMR.eligible pC10) = some "VT" ∧
    (∀ s ∈ MMR.eligible pC10, (MMR.validOf pC10 s).length < 253) ∧
    MMR.Momentum pC10 "VT" = ⊥ ∧
    MMR.Rebalance pC10 MMR.bil = 1 ∧
    MMR.Rebalance pC10 "VT" = 0 := by
  have h1 := winnerSel_pC10
  have h2 : ∀ s ∈ MMR.eligible pC10, (MMR.validOf pC10 s).length < 253 := by
    rw [eligible_pC10]
    intro s hs
    rw [List.mem_singleton] at hs
    subst hs
    simp [MMR.validOf, lookup_pC10_VT, length_dropna_upCol]
  have h3 := c10_winner_without_momentum pC10 "VT" h1 h2 (by decide)
  exact ⟨h1, h2, h3.1, h3.2.2.2.1, h3.2.2.2.2.1⟩

/-- C5: for every non-cash instrument the trend gate marks it ineligible
whenever it has fewer than SMA_PERIOD = 168 valid observations or its latest
close is not strictly greater than the simple moving average of its most
recent 168 closes — in particular an instrument whose latest close exactly
equals its SMA (e.g. a constant price series) is excluded, in both variants. -/
theorem c5_sma_gate :
    (∀ (closes : Panel) (s : Ticker), s ≠ MMR.bil →
      ((MMR.validOf closes s).length < MMR.sma_period ∨
        ilocNeg (MMR.validOf closes s) 1 ≤
          smaLast (MMR.validOf closes s) MMR.sma_period) →
      MMR.PassesSmaGate closes s = false ∧ s ∉ MMR.eligible closes) ∧
    (∀ (data : MMRLocal.DataPanel) (s : Ticker), s ≠ MMRLocal.CASH_PROXY →
      ((dropna (data s)).length < MMRLocal.SMA_PERIOD ∨
        ilocNeg (dropna (data s)) 1 ≤
          smaLast (dropna (data s)) MMRLocal.SMA_PERIOD) →
      s ∉ MMRLocal.eligibleL data) := by
  constructor
  · intro closes s hs hcond
    have hgate : MMR.PassesSmaGate closes s = false := by
      rw [MMR.PassesSmaGate, if_neg hs]
      rcases hl : closes.lookup s with _ | col
      · simp only [hl]
      · simp only [hl]
        rw [MMR.validOf, hl, Option.getD_some] at hcond
        by_cases hlen : (dropna col).length < MMR.sma_period
        · simp [hlen]
        · rcases hcond with h | h
          · exact absurd h hlen
          · rw [if_neg hlen]
            exact decide_eq_false (not_lt.mpr h)
    refine ⟨hgate, ?_⟩
    intro hmem
    rw [MMR.eligible, List.mem_filter] at hmem
    have hpred := hmem.2
    simp [hgate] at hpred
  · intro data s hs hcond hmem
    rw [MMRLocal.eligibleL, List.mem_filter] at hmem
    have hstep := hmem.2
    simp only [MMRLocal.eligStep] at hstep
    by_cases hlen : (dropna (data s)).length < MMRLocal.minHistory
    · rw [if_pos hlen] at hstep
      exact Bool.noConfusion hstep
    · rw [if_neg hlen] at hstep
      have h1 : (s == MMRLocal.CASH_PROXY) = false := beq_eq_false_iff_ne.mpr hs
      rcases hcond with h | h
      · exact absurd
          (lt_of_lt_of_le h (by decide : MMRLocal.SMA_PERIOD ≤ MMRLocal.minHistory)) hlen
      · have h2 : decide (smaLast (dropna (data s)) MMRLocal.SMA_PERIOD
            < ilocNeg (dropna (data s)) 1) = false := decide_eq_false (not_lt.mpr h)
        rw [h2, h1] at hstep
        simp at hstep

/-- C5 witness: a constant series of 300 closes at 100 has latest close equal
to its 168-day SMA and is excluded in both variants. -/
theorem c5_sma_gate_witness :
    MMR.PassesSmaGate pFlat "VT" = false ∧
    ("VT" : Ticker) ∉ MMR.eligible pFlat ∧
    ("VT" : Ticker) ∉ MMRLocal.eligibleL dataFlat := by
  have hv : MMR.validOf pFlat "VT" = List.replicate 300 (100 : ℚ) := by
    rw [MMR.validOf,
      show pFlat.lookup "VT" = some (List.replicate 300 (some (100 : ℚ))) from rfl,
      Option.getD_some, dropna_replicate]
  have hq : ilocNeg (MMR.validOf pFlat "VT") 1 ≤
      smaLast (MMR.validOf pFlat "VT") MMR.sma_period := by
    rw [hv, ilocNeg_replicate (100 : ℚ) (by norm_num) (by norm_num),
      smaLast_replicate (100 : ℚ) (by decide) (by decide)]
  have hv2 : dropna (dataFlat "VT") = List.replicate 300 (100 : ℚ) := by
    rw [show dataFlat "VT" = List.replicate 300 (some (100 : ℚ)) from rfl, dropna_replicate]
  have hq2 : ilocNeg (dropna (dataFlat "VT")) 1 ≤
      smaLast (dropna (dataFlat "VT")) MMRLocal.SMA_PERIOD := by
    rw [hv2, ilocNeg_replicate (100 : ℚ) (by norm_num) (by norm_num),
      smaLast_replicate (100 : ℚ) (by decide) (by decide)]
  exact ⟨(c5_sma_gate.1 pFlat "VT" (by decide) (Or.inr hq)).1,
         (c5_sma_gate.1 pFlat "VT" (by decide) (Or.inr hq)).2,
         c5_sma_gate.2 dataFlat "VT" (by decide) (Or.inr hq2)⟩

/-- C1 counterexample: the standalone variant's momentum at a series of 252
valid observations — fewer than max(lookbacks)+1 = 253 — is 0 (the mean over
the four lookbacks that fit), not negative infinity as the claim states. -/
theorem c1_counterexample :
    (List.replicate 252 (1 : ℚ)).length < MMR.max_lookback + 1 ∧
    MMRLocal.calculate_momentum (List.replicate 252 (1 : ℚ)) = ((0 : ℚ) : WithBot ℚ) := by
  constructor
  · rw [List.length_replicate, max_lookback_eq]
    norm_num
  · have e1 := ilocNeg_replicate (n := 252) (k := 1) (1 : ℚ) (by norm_num) (by norm_num)
    have e2 := ilocNeg_replicate (n := 252) (k := 22) (1 : ℚ) (by norm_num) (by norm_num)
    have e3 := ilocNeg_replicate (n := 252) (k := 64) (1 : ℚ) (by norm_num) (by norm_num)
    have e4 := ilocNeg_replicate (n := 252) (k := 127) (1 : ℚ) (by norm_num) (by norm_num)
    have e5 := ilocNeg_replicate (n := 252) (k := 190) (1 : ℚ) (by norm_num) (by norm_num)
    have hmr : MMRLocal.momReturns (List.replicate 252 (1 : ℚ)) = [0, 0, 0, 0] := by
      rw [MMRLocal.momReturns, MMRLocal.MOMENTUM_LOOKBACKS]
      simp only [List.filterMap_cons, List.filterMap_nil, List.length_replicate]
      rw [if_pos (by norm_num : (21 : ℕ) < 252), if_pos (by norm_num : (63 : ℕ) < 252),
        if_pos (by norm_num : (126 : ℕ) < 252), if_pos (by norm_num : (189 : ℕ) < 252),
        if_neg (by norm_num : ¬ (252 : ℕ) < 252)]
      rw [show (21 : ℕ) + 1 = 22 from rfl, show (63 : ℕ) + 1 = 64 from rfl,
        show (126 : ℕ) + 1 = 127 from rfl, show (189 : ℕ) + 1 = 190 from rfl]
      rw [e1, e2, e3, e4, e5]
      norm_num
    rw [MMRLocal.calculate_momentum, hmr,
      if_neg (by simp : ¬ ([0, 0, 0, 0] : List ℚ) = [])]
    norm_num

/-- C1 amended: the platform variant's `Momentum` is as claimed (negative
infinity when the symbol is absent or its valid history is shorter than
max(lookbacks)+1 = 253 observations, else the 5-lookback mean of
`price[-1]/price[-(L+1)] - 1`); the standalone variant's
`calculate_momentum` instead returns negative infinity only when NO lookback
fits (fewer than 22 valid observations), and agrees with the claimed mean
only from 253 observations on. -/
theorem c1_amended_momentum :
    (∀ (closes : Panel) (s : Ticker), closes.lookup s = none →
      MMR.Momentum closes s = ⊥) ∧
    (∀ (closes : Panel) (s : Ticker) (col : Series), closes.lookup s = some col →
      (dropna col).length < MMR.max_lookback + 1 → MMR.Momentum closes s = ⊥) ∧
    (∀ (closes : Panel) (s : Ticker) (col : Series), closes.lookup s = some col →
      MMR.max_lookback + 1 ≤ (dropna col).length →
      MMR.Momentum closes s = momentumSpec (dropna col)) ∧
    (∀ series : List ℚ,
      (MMRLocal.calculate_momentum series = ⊥ ↔ series.length < 22)) ∧
    (∀ series : List ℚ, MMR.max_lookback + 1 ≤ series.length →
      MMRLocal.calculate_momentum series = momentumSpec series) := by
  refine ⟨?_, ?_, ?_, ?_, ?_⟩
  · intro closes s h
    simp [MMR.Momentum, h]
  · intro closes s col hl hlen
    simp [MMR.Momentum, hl, hlen]
  · intro closes s col hl hlen
    have h1 : ¬ (dropna col).length < MMR.max_lookback + 1 := not_lt.mpr hlen
    have h2 : ¬ (dropna col).length < 253 := by
      rw [max_lookback_eq] at h1
      simpa using h1
    simp only [MMR.Momentum, hl]
    rw [if_neg h1, momentumSpec, if_neg h2, MMR.momentum_lookbacks]
  · intro series
    constructor
    · intro h
      by_contra hlen
      push_neg at hlen
      have h21 : 21 < series.length := by omega
      have hne : MMRLocal.momReturns series ≠ [] := by
        rw [MMRLocal.momReturns, MMRLocal.MOMENTUM_LOOKBACKS]
        simp [List.filterMap_cons, h21]
      rw [MMRLocal.calculate_momentum, if_neg hne] at h
      exact WithBot.coe_ne_bot h
    · intro hlen
      have h21 : ¬ 21 < series.length := by omega
      have h63 : ¬ 63 < series.length := by omega
      have h126 : ¬ 126 < series.length := by omega
      have h189 : ¬ 189 < series.length := by omega
      have h252 : ¬ 252 < series.length := by omega
      have hmr : MMRLocal.momReturns series = [] := by
        rw [MMRLocal.momReturns, MMRLocal.MOMENTUM_LOOKBACKS]
        simp [List.filterMap_cons, h21, h63, h126, h189, h252]
      rw [MMRLocal.calculate_momentum, if_pos hmr]
  · intro series hlen
    rw [max_lookback_eq] at hlen
    have h21 : 21 < series.length := by omega
    have h63 : 63 < series.length := by omega
    have h126 : 126 < series.length := by omega
    have h189 : 189 < series.length := by omega
    have h252 : 252 < series.length := by omega
    have hmr : MMRLocal.momReturns series =
        [ilocNeg series 1 / ilocNeg series 22 - 1, ilocNeg series 1 / ilocNeg series 64 - 1,
         ilocNeg series 1 / ilocNeg series 127 - 1, ilocNeg series 1 / ilocNeg series 190 - 1,
         ilocNeg series 1 / ilocNeg series 253 - 1] := by
      rw [MMRLocal.momReturns, MMRLocal.MOMENTUM_LOOKBACKS]
      simp [List.filterMap_cons, h21, h63, h126, h189, h252]
    have hne : MMRLocal.momReturns series ≠ [] := by rw [hmr]; simp
    rw [MMRLocal.calculate_momentum, if_neg hne, hmr, momentumSpec,
      if_neg (by omega : ¬ series.length < 253)]
    norm_num

/-- C1 amended witness: the characterizations instantiated at an absent
symbol, a 10-observation series, and a 253-observation series. -/
theorem c1_amended_momentum_witness :
    MMR.Momentum [] "VT" = ⊥ ∧
    MMRLocal.calculate_momentum (List.replicate 10 (1 : ℚ)) = ⊥ ∧
    MMRLocal.calculate_momentum (List.replicate 253 (1 : ℚ)) =
      momentumSpec (List.replicate 253 (1 : ℚ)) :=
  ⟨c1_amended_momentum.1 [] "VT" rfl,
   (c1_amended_momentum.2.2.2.1 _).mpr (by decide),
   c1_amended_momentum.2.2.2.2 _ (by decide)⟩

/-- C2 counterexample: in the standalone variant the cash proxy is present in
the panel with 100 valid prices, yet the eligible set is empty — eligibility
is NOT independent of the cash proxy's price data there. -/
theorem c2_counterexample :
    dropna (dataC2 MMRLocal.CASH_PROXY) ≠ [] ∧
    MMRLocal.CASH_PROXY ∉ MMRLocal.eligibleL dataC2 ∧
    MMRLocal.eligibleL dataC2 = [] := ⟨by decide, by decide, by decide⟩

/-- C2 amended: in the platform variant the cash proxy is eligible whenever
it is present in the panel, regardless of its price data; in the standalone
variant the cash proxy is eligible iff it has at least
max(lookbacks ∪ {SMA period, vol lookback}) = 252 valid observations. -/
theorem c2_amended_cash_eligibility :
    (∀ closes : Panel, (closes.lookup MMR.bil).isSome = true →
      MMR.bil ∈ MMR.eligible closes) ∧
    (∀ data : MMRLocal.DataPanel,
      (MMRLocal.CASH_PROXY ∈ MMRLocal.eligibleL data ↔
        MMRLocal.minHistory ≤ (dropna (data MMRLocal.CASH_PROXY)).length)) := by
  constructor
  · intro closes h
    rw [MMR.eligible, List.mem_filter]
    refine ⟨by decide, ?_⟩
    have hg : MMR.PassesSmaGate closes MMR.bil = true := by
      rw [MMR.PassesSmaGate, if_pos rfl]
    simp [h, hg]
  · intro data
    constructor
    · intro hmem
      rw [MMRLocal.eligibleL, List.mem_filter] at hmem
      have hstep := hmem.2
      simp only [MMRLocal.eligStep] at hstep
      by_cases hlen : (dropna (data MMRLocal.CASH_PROXY)).length < MMRLocal.minHistory
      · rw [if_pos hlen] at hstep
        exact Bool.noConfusion hstep
      · exact not_lt.mp hlen
    · intro hlen
      rw [MMRLocal.eligibleL, List.mem_filter]
      refine ⟨by decide, ?_⟩
      simp only [MMRLocal.eligStep]
      rw [if_neg (not_lt.mpr hlen)]
      simp

/-- C2 amended witness: BIL present with one price is eligible in the
platform variant; BIL with 253 valid prices is eligible in the standalone
variant. -/
theorem c2_amended_cash_eligibility_witness :
    MMR.bil ∈ MMR.eligible pBil ∧
    MMRLocal.CASH_PROXY ∈ MMRLocal.eligibleL dataBil :=
  ⟨c2_amended_cash_eligibility.1 pBil (by decide),
   (c2_amended_cash_eligibility.2 dataBil).mpr (by decide)⟩

/-- C6 counterexample: the standalone variant's 126-day-return expression is
negative infinity on a series with exactly 127 valid observations, although
at least 127 valid observations exist — contradicting "negative infinity
exactly when fewer than 127 valid observations exist". -/
theorem c6_counterexample :
    127 ≤ (List.replicate 127 (1 : ℚ)).length ∧
    MMRLocal.abs_6m_ret (List.replicate 127 (1 : ℚ)) = ⊥ := ⟨by decide, by decide⟩

/-- C6 amended: the platform variant's `AbsoluteReturn6M` is negative
infinity exactly when the symbol is absent or has fewer than 127 valid
observations, and is `price[-1]/price[-127] - 1` otherwise; the standalone
variant's guard is `len(px) > 127`, so its return is negative infinity
exactly when fewer than 128 valid observations exist (an off-by-one at
exactly 127).  In the platform variant a non-cash instrument that is present
and passes the SMA gate is eligible iff its return strictly exceeds the cash
proxy's. -/
theorem c6_amended_return_gate :
    (∀ (closes : Panel) (s : Ticker),
      (MMR.AbsoluteReturn6M closes s = ⊥ ↔
        closes.lookup s = none ∨ (MMR.validOf closes s).length < 127)) ∧
    (∀ (closes : Panel) (s : Ticker) (col : Series), closes.lookup s = some col →
      127 ≤ (dropna col).length →
      MMR.AbsoluteReturn6M closes s =
        ((ilocNeg (dropna col) 1 / ilocNeg (dropna col) 127 - 1 : ℚ) : WithBot ℚ)) ∧
    (∀ px : List ℚ, (MMRLocal.abs_6m_ret px = ⊥ ↔ px.length < 128)) ∧
    (∀ px : List ℚ, 128 ≤ px.length →
      MMRLocal.abs_6m_ret px =
        ((ilocNeg px 1 / ilocNeg px 127 - 1 : ℚ) : WithBot ℚ)) ∧
    (∀ (closes : Panel) (s : Ticker), s ∈ MMR.assets → s ≠ MMR.bil →
      (closes.lookup s).isSome = true → MMR.PassesSmaGate closes s = true →
      (s ∈ MMR.eligible closes ↔
        MMR.AbsoluteReturn6M closes MMR.bil < MMR.AbsoluteReturn6M closes s)) := by
  refine ⟨?_, ?_, ?_, ?_, ?_⟩
  · intro closes s
    rcases hl : closes.lookup s with _ | col
    · simp [MMR.AbsoluteReturn6M, hl]
    · simp only [MMR.AbsoluteReturn6M, hl, MMR.validOf, Option.getD_some]
      by_cases hlen : (dropna col).length < 126 + 1
      · simp [hlen]
      · simp [hlen, WithBot.coe_ne_bot]
  · intro closes s col hl hlen
    simp only [MMR.AbsoluteReturn6M, hl]
    rw [if_neg (by omega : ¬ (dropna col).length < 126 + 1)]
  · intro px
    by_cases h : 127 < px.length
    · simp [MMRLocal.abs_6m_ret, h, WithBot.coe_ne_bot]
      omega
    · simp [MMRLocal.abs_6m_ret, h]
      omega
  · intro px hlen
    rw [MMRLocal.abs_6m_ret, if_pos (by omega : 127 < px.length)]
  · intro closes s hsa hsb hsl hsg
    rw [MMR.eligible, List.mem_filter]
    simp [hsa, hsl, hsg, beq_eq_false_iff_ne.mpr hsb]

/-- C6 amended witness: the return characterizations at a 127-observation
platform column (value computed) and at a 130-observation standalone series. -/
theorem c6_amended_return_gate_witness :
    MMR.AbsoluteReturn6M p127 "VT" =
      ((ilocNeg (dropna (List.replicate 127 (some (2 : ℚ)))) 1 /
        ilocNeg (dropna (List.replicate 127 (some (2 : ℚ)))) 127 - 1 : ℚ) : WithBot ℚ) ∧
    MMRLocal.abs_6m_ret (List.replicate 130 (1 : ℚ)) =
      ((ilocNeg (List.replicate 130 (1 : ℚ)) 1 /
        ilocNeg (List.replicate 130 (1 : ℚ)) 127 - 1 : ℚ) : WithBot ℚ) :=
  ⟨c6_amended_return_gate.2.1 p127 "VT" _ rfl (by decide),
   c6_amended_return_gate.2.2.2.1 _ (by decide)⟩
